import Mathlib

/-!
Shallow embedding of the `static_router` package: the `Page` model
(`models/page.py`), the `StaticContentLoader` (`loaders/static.py`) and the
`StaticRouter` (`main.py`).  Python strings are Lean `String`s (with list-of-
character helpers for the splitting primitives), Python dicts are insertion-
ordered association lists, exceptions become `Except String`, and the external
collaborators (the YAML parser, the Markdown renderer, the filesystem walk and
the web framework) are parameters of the embedded operations.
-/

namespace StaticRouterModel

/-- Model of the values a YAML frontmatter mapping can hold (`Any` in the
source).  Enough constructors to express the claims; `truthy` mirrors Python
truthiness for these shapes. -/
inductive Value where
  | vnull
  | vbool (b : Bool)
  | vint (n : Int)
  | vstr (s : String)
deriving DecidableEq, Repr

/-- Python truthiness of a `Value`: `None`, `False`, `0` and `""` are falsy. -/
def Value.truthy : Value → Bool
  | .vnull => false
  | .vbool b => b
  | .vint n => decide (n ≠ 0)
  | .vstr s => decide (s ≠ "")

/-- Python `str(value)`, as used by f-string interpolation in `page_handler`. -/
def Value.toStr : Value → String
  | .vnull => "None"
  | .vbool b => if b then "True" else "False"
  | .vint n => toString n
  | .vstr s => s

/-- Insertion-ordered dictionary, the model of a Python `dict`. -/
abbrev Dict (α : Type) : Type := List (String × α)

/-- Model of Python `d.get(k)` / `d[k]`: first (and only) binding wins. -/
def dictGet {α : Type} : Dict α → String → Option α
  | [], _ => none
  | (k', v') :: rest, k => if k' = k then some v' else dictGet rest k

/-- Model of Python `d[k] = v`: update in place if the key exists (keeping its
position), otherwise append at the end. -/
def dictSet {α : Type} : Dict α → String → α → Dict α
  | [], k, v => [(k, v)]
  | (k', v') :: rest, k, v =>
      if k' = k then (k, v) :: rest else (k', v') :: dictSet rest k v

/-- The keys of a dict, in insertion order. -/
def dictKeys {α : Type} (d : Dict α) : List String := d.map Prod.fst

/-- First occurrence of `sep` in `s`: `some (pre, suf)` where
`s = pre ++ sep ++ suf` and `pre` holds no occurrence, else `none`. -/
def splitFirst (sep : List Char) : List Char → Option (List Char × List Char)
  | [] => if sep.isPrefixOf ([] : List Char) then some ([], []) else none
  | c :: cs =>
      if sep.isPrefixOf (c :: cs) then some ([], (c :: cs).drop sep.length)
      else (splitFirst sep cs).map (fun p => (c :: p.1, p.2))

/-- Model of Python `s.split(sep, maxsplit)` for a non-empty `sep`: split on
the leftmost, non-overlapping occurrences, at most `maxsplit` times. -/
def pySplit (sep : List Char) : Nat → List Char → List (List Char)
  | 0, s => [s]
  | m + 1, s =>
      match splitFirst sep s with
      | none => [s]
      | some (pre, suf) => pre :: pySplit sep m suf

/-- Fuel-indexed count of the leftmost non-overlapping occurrences of `sep`. -/
def countOccAux (sep : List Char) : Nat → List Char → Nat
  | 0, _ => 0
  | f + 1, s =>
      match splitFirst sep s with
      | none => 0
      | some (_, suf) => countOccAux sep f suf + 1

/-- Number of non-overlapping occurrences of `sep` in `s` (as counted by
Python `split`); the fuel `s.length + 1` always suffices for non-empty `sep`. -/
def countOcc (sep s : List Char) : Nat := countOccAux sep (s.length + 1) s

/-- Model of Python `s.replace(old, new)` for a non-empty `old` (the source
always passes the loader directory): replace every leftmost non-overlapping
occurrence. -/
def pyReplaceAux (old new : List Char) : Nat → List Char → List Char
  | 0, s => s
  | f + 1, s =>
      match splitFirst old s with
      | none => s
      | some (pre, suf) => pre ++ new ++ pyReplaceAux old new f suf

/-- String-level Python `s.replace(old, new)` (non-empty `old`). -/
def pyReplace (s old new : String) : String :=
  ⟨pyReplaceAux old.data new.data (s.data.length + 1) s.data⟩

/-- Model of Python `s.endswith(suffix)`. -/
def pyEndsWith (s suffix : String) : Bool := suffix.data.isSuffixOf s.data

/-- Model of Python `s.startswith(px)` (used only to state path invariants). -/
def pyStartsWith (s px : String) : Bool := px.data.isPrefixOf s.data

/-- The delimiter `"---"` that `from_markdown_string` splits on. -/
def fmDelim : List Char := ['-', '-', '-']

/-- The `Page` pydantic model: frontmatter mapping, rendered content, path
(`models/page.py`, class `Page`). -/
structure Page where
  frontmatter : Dict Value
  content : String
  path : String
deriving DecidableEq, Repr

/-- Result of Python attribute access on a `Page`: the three pydantic fields
(instance `__dict__`) and the attributes of the `pydantic.BaseModel` class
(methods such as `copy` or `model_dump`, found by normal lookup) all shadow
`__getattr__`; only a name none of those resolve falls back to
`frontmatter.get(name)` (`models/page.py`, `Page.__getattr__`). -/
inductive AttrValue where
  | coreDict (d : Dict Value)
  | coreStr (s : String)
  | classAttr (name : String)
  | fm (v : Option Value)
deriving DecidableEq, Repr

/-- Representative names resolving to attributes of the `pydantic.BaseModel`
class itself, which Python's normal attribute lookup finds before ever
calling `__getattr__`.  The exact set depends on the installed pydantic
version (and includes dunder and private names), so the access operation
takes the set as a parameter; this list holds the documented public API
names of both major versions for use at concrete instances. -/
def pydanticClassAttrs : List String :=
  ["construct", "copy", "dict", "json", "schema", "schema_json",
   "update_forward_refs", "validate", "parse_obj", "parse_raw", "parse_file",
   "from_orm", "model_config", "model_fields", "model_computed_fields",
   "model_construct", "model_copy", "model_dump", "model_dump_json",
   "model_extra", "model_fields_set", "model_json_schema",
   "model_parametrized_name", "model_post_init", "model_rebuild",
   "model_validate", "model_validate_json", "model_validate_strings"]

/-- Python attribute read `page.<name>`: instance fields first (pydantic
stores the model fields in the instance `__dict__`), then class attributes
of `pydantic.BaseModel` (`classAttrs`, a parameter because the set is
pydantic-version-dependent), and only then the `__getattr__` fallback into
the frontmatter mapping. -/
def Page.getattr (classAttrs : List String) (p : Page) (name : String) : AttrValue :=
  if name = "frontmatter" then .coreDict p.frontmatter
  else if name = "content" then .coreStr p.content
  else if name = "path" then .coreStr p.path
  else if name ∈ classAttrs then .classAttr name
  else .fm (dictGet p.frontmatter name)

/-- Python attribute write `page.<name> = v` (`models/page.py`,
`Page.__setattr__`): always stores into the frontmatter mapping, never into a
field. -/
def Page.setattr (p : Page) (name : String) (v : Value) : Page :=
  { p with frontmatter := dictSet p.frontmatter name v }

/-- The trailing-slash normalization inside `from_markdown_string`
(`models/page.py` lines 138-139). -/
def normalizePath (path : String) : String :=
  if pyEndsWith path "/" then path else path ++ "/"

/-- Embedding of `Page.from_markdown_string` (`models/page.py`).  `yamlLoad`
models `yaml.safe_load` restricted to mapping-or-null results (`none` is
YAML `None`); `mdRenderer` models the `md_renderer` argument applied with its
options.  `md.split("---", 2)[1:]` must unpack into exactly two parts,
otherwise the `ValueError` is re-raised as the missing-frontmatter error. -/
def Page.from_markdown_string (yamlLoad : String → Option (Dict Value))
    (mdRenderer : String → String) (md : String) (path : String) :
    Except String Page :=
  match (pySplit fmDelim 2 md.data).drop 1 with
  | [fm, content] =>
      let frontmatter :=
        match yamlLoad (String.mk fm) with
        | none => []
        | some m => if m = [] then [] else m
      .ok { frontmatter := frontmatter,
            content := mdRenderer (String.mk content),
            path := normalizePath path }
  | _ => .error ("Page " ++ path ++ " must have frontmatter.")

/-- Model of `pathlib.Path.with_suffix("")` for the paths `rglob("*.md")`
yields: drop the trailing `".md"` extension. -/
def stripMdSuffix (s : String) : String :=
  if pyEndsWith s ".md" then ⟨s.data.take (s.data.length - 3)⟩ else s

/-- The URL path `StaticContentLoader.load` derives for one file
(`loaders/static.py` lines 82-85): strip the `.md` suffix, remove every
occurrence of the directory substring, append `"/"`, and rewrite `"/index/"`
to `"/"`. -/
def StaticContentLoader.page_path (directory filePath : String) : String :=
  let p := pyReplace (stripMdSuffix filePath) directory "" ++ "/"
  if p = "/index/" then "/" else p

/-- Embedding of `StaticContentLoader.load` (`loaders/static.py`).  `files`
models the `rglob("*.md")` enumeration, in traversal order, paired with each
file's text; the loop appends one page per file and an exception from any
file aborts the whole loop. -/
def StaticContentLoader.load (directory : String)
    (yamlLoad : String → Option (Dict Value)) (mdRenderer : String → String) :
    List (String × String) → Except String (List Page)
  | [] => .ok []
  | f :: rest =>
      match Page.from_markdown_string yamlLoad mdRenderer f.2
        (StaticContentLoader.page_path directory f.1) with
      | .error e => .error e
      | .ok p =>
          match StaticContentLoader.load directory yamlLoad mdRenderer rest with
          | .error e => .error e
          | .ok ps => .ok (p :: ps)

/-- The `StaticRouter` (`main.py`): the path-to-page index built at
construction and the default template name. -/
structure StaticRouter where
  _pages : Dict Page
  _default_template : String
deriving DecidableEq, Repr

/-- Embedding of `StaticRouter.__init__` (`main.py` lines 17-32): the dict
comprehension `{page.path: page for page in content_loader.load()}`. -/
def buildIndex (pages : List Page) : Dict Page :=
  pages.foldl (fun acc p => dictSet acc p.path p) []

/-- Construction of a `StaticRouter` from the outcome of `load()`: a load
failure propagates and no router is produced. -/
def StaticRouter.init (loadResult : Except String (List Page))
    (default_template : String) : Except String StaticRouter :=
  match loadResult with
  | .error e => .error e
  | .ok pages => .ok { _pages := buildIndex pages, _default_template := default_template }

/-- Identity of a route handler function: the source registers the single
bound method `self.page_handler` for every path. -/
inductive HandlerRef where
  | page_handler
deriving DecidableEq, Repr

/-- One route of the host FastAPI application: HTTP method, bound path, and
the handler installed for it. -/
structure Route where
  method : String
  path : String
  handler : HandlerRef
deriving DecidableEq, Repr

/-- Embedding of `StaticRouter.register` (`main.py` lines 39-49): for each
indexed path, in index order, `app.get(path)(self.page_handler)` appends one
GET route to the application. -/
def StaticRouter.register (r : StaticRouter) (app : List Route) : List Route :=
  app ++ (dictKeys r._pages).map
    (fun p => { method := "GET", path := p, handler := HandlerRef.page_handler })

/-- Observable outcome of one `page_handler` call: the 404 `HTTPException`,
or a `TemplateResponse` with the resolved template file and the page served. -/
inductive HandlerResult where
  | httpException (status : Nat)
  | templateResponse (templateFile : String) (pagePath : String)
deriving DecidableEq, Repr

/-- Embedding of `StaticRouter.page_handler` (`main.py` lines 51-90).  The
request is represented by its URL path component (`request.url.components[2]`).
Python mutates the looked-up `Page` in place when `page.template` is falsy;
here that mutation is the returned router state. -/
def StaticRouter.page_handler (r : StaticRouter) (requestPath : String) :
    HandlerResult × StaticRouter :=
  match dictGet r._pages requestPath with
  | none => (.httpException 404, r)
  | some page =>
      let needsDefault :=
        match dictGet page.frontmatter "template" with
        | none => true
        | some v => !v.truthy
      let page1 :=
        if needsDefault then page.setattr "template" (.vstr r._default_template) else page
      let r1 :=
        if needsDefault then { r with _pages := dictSet r._pages requestPath page1 } else r
      let t := (dictGet page1.frontmatter "template").elim "None" Value.toStr
      (.templateResponse (t ++ ".html") page1.path, r1)

/-! Helper lemmas about the splitting primitives. -/

/-- A non-empty separator never occurs in the empty string. -/
lemma splitFirst_nil {sep : List Char} (hsep : sep ≠ []) :
    splitFirst sep [] = none := by
  cases sep with
  | nil => exact absurd rfl hsep
  | cons c cs => simp [splitFirst, List.isPrefixOf]

/-- Splitting off the first occurrence of a non-empty separator strictly
shortens the string. -/
lemma splitFirst_suf_lt {sep : List Char} (hsep : sep ≠ []) :
    ∀ s pre suf, splitFirst sep s = some (pre, suf) → suf.length < s.length := by
  intro s
  induction s with
  | nil =>
      intro pre suf h
      rw [splitFirst_nil hsep] at h
      exact absurd h (by simp)
  | cons c cs ih =>
      intro pre suf h
      cases hb : sep.isPrefixOf (c :: cs) with
      | true =>
          simp only [splitFirst, hb, if_true, Option.some.injEq, Prod.mk.injEq] at h
          obtain ⟨hpre, hsuf⟩ := h
          have hpos : 0 < sep.length := List.length_pos.mpr hsep
          rw [← hsuf, List.length_drop]
          simp only [List.length_cons]
          omega
      | false =>
          simp only [splitFirst, hb, Bool.false_eq_true, if_false,
            Option.map_eq_some'] at h
          obtain ⟨⟨pre', suf'⟩, hsp, heq⟩ := h
          have hsuf : suf = suf' := (Prod.ext_iff.mp heq.symm).2
          have := ih pre' suf' hsp
          rw [hsuf]
          simp only [List.length_cons]
          omega

/-- Counting occurrences does not depend on the fuel once the fuel exceeds
the string length. -/
lemma countOccAux_fuel {sep : List Char} (hsep : sep ≠ []) :
    ∀ n s f g, s.length ≤ n → s.length < f → s.length < g →
      countOccAux sep f s = countOccAux sep g s := by
  intro n
  induction n with
  | zero =>
      intro s f g hs hf hg
      have hnil : s = [] := List.eq_nil_of_length_eq_zero (Nat.le_zero.mp hs)
      subst hnil
      match f, g, hf, hg with
      | f' + 1, g' + 1, _, _ => simp [countOccAux, splitFirst_nil hsep]
  | succ n ihn =>
      intro s f g hs hf hg
      match f, g, hf, hg with
      | f' + 1, g' + 1, hf, hg =>
        rcases hsp : splitFirst sep s with _ | ⟨pre, suf⟩
        · simp [countOccAux, hsp]
        · have hlt := splitFirst_suf_lt hsep s pre suf hsp
          have := ihn suf f' g' (by omega) (by omega) (by omega)
          simp [countOccAux, hsp, this]

/-- Any fuel beyond the string length computes `countOcc`. -/
lemma countOccAux_eq_countOcc {sep : List Char} (hsep : sep ≠ []) {f : Nat}
    {s : List Char} (hf : s.length < f) : countOccAux sep f s = countOcc sep s :=
  countOccAux_fuel hsep s.length s f (s.length + 1) le_rfl hf (Nat.lt_succ_self _)

/-- One splitting step decrements the occurrence count. -/
lemma countOcc_succ {sep : List Char} (hsep : sep ≠ []) {s pre suf : List Char}
    (hsp : splitFirst sep s = some (pre, suf)) :
    countOcc sep s = countOcc sep suf + 1 := by
  have hlt := splitFirst_suf_lt hsep s pre suf hsp
  have h1 : countOccAux sep s.length suf = countOcc sep suf :=
    countOccAux_eq_countOcc hsep (by omega)
  simp [countOcc, countOccAux, hsp, h1]

/-- No occurrence means a zero occurrence count. -/
lemma countOcc_zero {sep : List Char} {s : List Char}
    (hsp : splitFirst sep s = none) : countOcc sep s = 0 := by
  simp [countOcc, countOccAux, hsp]

/-- The number of parts `split(sep, maxsplit)` produces: one more than the
occurrence count, capped by the maxsplit bound. -/
lemma pySplit_length {sep : List Char} (hsep : sep ≠ []) :
    ∀ m s, (pySplit sep m s).length = min m (countOcc sep s) + 1 := by
  intro m
  induction m with
  | zero => intro s; simp [pySplit]
  | succ m ih =>
      intro s
      rcases hsp : splitFirst sep s with _ | ⟨pre, suf⟩
      · simp [pySplit, hsp, countOcc_zero hsp]
      · have hc := countOcc_succ hsep hsp
        simp only [pySplit, hsp, List.length_cons, ih suf, hc]
        omega

/-! Helper lemmas about `from_markdown_string` and path normalization. -/

/-- A normalized path always ends with a slash. -/
lemma normalizePath_endsWith (path : String) :
    pyEndsWith (normalizePath path) "/" = true := by
  unfold normalizePath
  cases hb : pyEndsWith path "/" with
  | true => simpa using hb
  | false =>
      simp only [Bool.false_eq_true, if_false, pyEndsWith, String.data_append]
      exact List.isSuffixOf_iff_suffix.mpr ⟨(path.data : List Char), rfl⟩

/-- With fewer than two delimiter occurrences, `from_markdown_string` raises
the missing-frontmatter `ValueError`. -/
lemma from_markdown_string_error (yamlLoad : String → Option (Dict Value))
    (mdRenderer : String → String) (md path : String)
    (h : countOcc fmDelim md.data < 2) :
    Page.from_markdown_string yamlLoad mdRenderer md path
      = .error ("Page " ++ path ++ " must have frontmatter.") := by
  have hlen : (pySplit fmDelim 2 md.data).length = countOcc fmDelim md.data + 1 := by
    rw [pySplit_length (by decide) 2 md.data]
    omega
  rcases hl : pySplit fmDelim 2 md.data with _ | ⟨a, _ | ⟨b, rest⟩⟩
  · simp [Page.from_markdown_string, hl]
  · simp [Page.from_markdown_string, hl]
  · have : rest = [] := by
      rw [hl] at hlen
      simp only [List.length_cons] at hlen
      exact List.eq_nil_of_length_eq_zero (by omega)
    subst this
    simp [Page.from_markdown_string, hl]

/-- With at least two delimiter occurrences, `from_markdown_string` returns a
page whose path is the normalized path argument. -/
lemma from_markdown_string_ok (yamlLoad : String → Option (Dict Value))
    (mdRenderer : String → String) (md path : String)
    (h : 2 ≤ countOcc fmDelim md.data) :
    ∃ p, Page.from_markdown_string yamlLoad mdRenderer md path = .ok p
      ∧ p.path = normalizePath path := by
  have hlen : (pySplit fmDelim 2 md.data).length = 3 := by
    rw [pySplit_length (by decide) 2 md.data]
    omega
  rcases hl : pySplit fmDelim 2 md.data with _ | ⟨a, _ | ⟨b, _ | ⟨c, rest⟩⟩⟩ <;>
    rw [hl] at hlen <;> simp only [List.length_cons, List.length_nil] at hlen
  · omega
  · omega
  · omega
  · have : rest = [] := List.eq_nil_of_length_eq_zero (by omega)
    subst this
    refine ⟨{ frontmatter := match yamlLoad (String.mk b) with
                | none => []
                | some m => if m = [] then [] else m,
              content := mdRenderer (String.mk c),
              path := normalizePath path }, ?_, rfl⟩
    simp [Page.from_markdown_string, hl]

/-- Inversion of a successful `from_markdown_string`: the three components of
the returned page in terms of the split segments. -/
lemma from_markdown_string_ok_inv (yamlLoad : String → Option (Dict Value))
    (mdRenderer : String → String) (md path : String) (p : Page)
    (h : Page.from_markdown_string yamlLoad mdRenderer md path = .ok p) :
    ∃ fmSeg contentSeg,
      (pySplit fmDelim 2 md.data).drop 1 = [fmSeg, contentSeg]
      ∧ p.frontmatter = (yamlLoad (String.mk fmSeg)).getD []
      ∧ p.content = mdRenderer (String.mk contentSeg)
      ∧ p.path = normalizePath path := by
  rcases hd : (pySplit fmDelim 2 md.data).drop 1 with _ | ⟨a, _ | ⟨b, _ | ⟨c, rest⟩⟩⟩ <;>
    simp only [Page.from_markdown_string, hd] at h
  · exact absurd h (by simp)
  · exact absurd h (by simp)
  · refine ⟨a, b, rfl, ?_, ?_, ?_⟩
    · rw [← (Except.ok.injEq .. ▸ h :)]
      rcases hy : yamlLoad (String.mk a) with _ | m
      · simp [hy]
      · rcases hm : decide (m = []) with _ | _ <;> simp_all [Option.getD]
    · rw [← (Except.ok.injEq .. ▸ h :)]
    · rw [← (Except.ok.injEq .. ▸ h :)]
  · exact absurd h (by simp)

/-! Helper lemmas about the dict model. -/

/-- Reading back the key just written. -/
lemma dictGet_dictSet_self {α : Type} :
    ∀ (d : Dict α) (k : String) (v : α), dictGet (dictSet d k v) k = some v := by
  intro d k v
  induction d with
  | nil => simp [dictSet, dictGet]
  | cons kv rest ih =>
      by_cases hk : kv.1 = k
      · simp [dictSet, hk, dictGet]
      · simp [dictSet, hk, dictGet, ih]

/-- Writing the value a key already holds leaves the dict unchanged. -/
lemma dictSet_get_self {α : Type} :
    ∀ (d : Dict α) (k : String) (v : α), dictGet d k = some v → dictSet d k v = d := by
  intro d k v h
  induction d with
  | nil => simp [dictGet] at h
  | cons kv rest ih =>
      by_cases hk : kv.1 = k
      · simp only [dictGet, hk, if_pos, Option.some.injEq] at h
        simp only [dictSet, hk, if_pos, List.cons.injEq, and_true]
        rw [← hk, ← h]
      · simp only [dictGet, hk, if_neg, not_false_iff] at h
        simp [dictSet, hk, ih h]

/-- A key reads as `none` exactly when it is not among the keys. -/
lemma dictGet_eq_none_iff {α : Type} :
    ∀ (d : Dict α) (k : String), dictGet d k = none ↔ k ∉ dictKeys d := by
  intro d k
  induction d with
  | nil => simp [dictGet, dictKeys]
  | cons kv rest ih =>
      by_cases hk : kv.1 = k
      · simp [dictGet, hk, dictKeys]
      · simp only [dictGet, hk, if_neg, not_false_iff, dictKeys, List.map_cons,
          List.mem_cons] at ih ⊢
        rw [ih]
        constructor
        · intro hn hor
          rcases hor with h1 | h2
          · exact hk h1.symm
          · exact hn h2
        · intro hn h2
          exact hn (Or.inr h2)

/-- A key reads as `some` exactly when it is among the keys. -/
lemma dictGet_isSome_of_mem {α : Type} (d : Dict α) (k : String)
    (h : k ∈ dictKeys d) : ∃ v, dictGet d k = some v := by
  rcases hg : dictGet d k with _ | v
  · exact absurd h ((dictGet_eq_none_iff d k).mp hg)
  · exact ⟨v, rfl⟩

/-- Writing adds at most the written key to the key set. -/
lemma mem_dictKeys_dictSet {α : Type} :
    ∀ (d : Dict α) (k : String) (v : α) (x : String),
      x ∈ dictKeys (dictSet d k v) → x = k ∨ x ∈ dictKeys d := by
  intro d k v x h
  induction d with
  | nil => simpa [dictSet, dictKeys] using h
  | cons kv rest ih =>
      by_cases hk : kv.1 = k
      · simp only [dictSet, hk, if_pos, dictKeys, List.map_cons, List.mem_cons] at h ⊢
        tauto
      · simp only [dictSet, hk, if_neg, not_false_iff, dictKeys, List.map_cons,
          List.mem_cons] at h ⊢
        rcases h with h1 | h2
        · tauto
        · rcases ih h2 with h3 | h4 <;> tauto

/-- Writing preserves distinctness of the keys. -/
lemma dictKeys_dictSet_nodup {α : Type} :
    ∀ (d : Dict α) (k : String) (v : α),
      (dictKeys d).Nodup → (dictKeys (dictSet d k v)).Nodup := by
  intro d k v h
  induction d with
  | nil => simp [dictSet, dictKeys]
  | cons kv rest ih =>
      simp only [dictKeys, List.map_cons, List.nodup_cons] at h
      by_cases hk : kv.1 = k
      · simp only [dictSet, hk, if_pos, dictKeys, List.map_cons, List.nodup_cons]
        exact ⟨hk ▸ h.1, h.2⟩
      · simp only [dictSet, hk, if_neg, not_false_iff, dictKeys, List.map_cons,
          List.nodup_cons]
        refine ⟨fun hmem => ?_, ih h.2⟩
        rcases mem_dictKeys_dictSet rest k v kv.1 hmem with h1 | h2
        · exact hk h1
        · exact h.1 h2

/-- The index built at router construction has distinct keys. -/
lemma buildIndex_keys_nodup (pages : List Page) :
    (dictKeys (buildIndex pages)).Nodup := by
  have aux : ∀ (ps : List Page) (acc : Dict Page), (dictKeys acc).Nodup →
      (dictKeys (ps.foldl (fun acc p => dictSet acc p.path p) acc)).Nodup := by
    intro ps
    induction ps with
    | nil => intro acc h; exact h
    | cons p rest ih =>
        intro acc h
        exact ih _ (dictKeys_dictSet_nodup acc p.path p h)
  exact aux pages [] (by simp [dictKeys])

/-! Helper lemmas about the loader loop. -/

/-- One file failing `from_markdown_string` fails the whole `load`. -/
lemma load_error_of_mem (directory : String)
    (yamlLoad : String → Option (Dict Value)) (mdRenderer : String → String) :
    ∀ (files : List (String × String)) (f : String × String), f ∈ files →
      (∃ e, Page.from_markdown_string yamlLoad mdRenderer f.2
        (StaticContentLoader.page_path directory f.1) = .error e) →
      ∃ e, StaticContentLoader.load directory yamlLoad mdRenderer files = .error e := by
  intro files
  induction files with
  | nil => intro f hf; exact absurd hf (by simp)
  | cons g rest ih =>
      intro f hf ⟨e, hfe⟩
      rcases hg : Page.from_markdown_string yamlLoad mdRenderer g.2
          (StaticContentLoader.page_path directory g.1) with e' | p
      · exact ⟨e', by simp [StaticContentLoader.load, hg]⟩
      · rcases List.mem_cons.mp hf with rfl | hf'
        · rw [hg] at hfe
          exact absurd hfe (by simp)
        · obtain ⟨e2, h2⟩ := ih f hf' ⟨e, hfe⟩
          exact ⟨e2, by simp [StaticContentLoader.load, hg, h2]⟩

/-- Every page a successful `load` returns was produced by
`from_markdown_string` on one of the enumerated files. -/
lemma load_ok_mem (directory : String)
    (yamlLoad : String → Option (Dict Value)) (mdRenderer : String → String) :
    ∀ (files : List (String × String)) (pages : List Page),
      StaticContentLoader.load directory yamlLoad mdRenderer files = .ok pages →
      ∀ p ∈ pages, ∃ f ∈ files,
        Page.from_markdown_string yamlLoad mdRenderer f.2
          (StaticContentLoader.page_path directory f.1) = .ok p := by
  intro files
  induction files with
  | nil =>
      intro pages h p hp
      simp only [StaticContentLoader.load, Except.ok.injEq] at h
      subst h
      exact absurd hp (by simp)
  | cons g rest ih =>
      intro pages h p hp
      rcases hg : Page.from_markdown_string yamlLoad mdRenderer g.2
          (StaticContentLoader.page_path directory g.1) with e | q
      · rw [StaticContentLoader.load, hg] at h
        exact absurd h (by simp)
      · rw [StaticContentLoader.load, hg] at h
        rcases hr : StaticContentLoader.load directory yamlLoad mdRenderer rest with e | qs
        · rw [hr] at h
          exact absurd h (by simp)
        · rw [hr] at h
          simp only [Except.ok.injEq] at h
          subst h
          rcases List.mem_cons.mp hp with rfl | hp'
          · exact ⟨g, by simp, hg⟩
          · obtain ⟨f, hf, hfp⟩ := ih qs hr p hp'
            exact ⟨f, by simp [hf], hfp⟩

/-! The claims. -/

/-- C2: for every input string containing fewer than two occurrences of the
delimiter `---` and every path, `Page.from_markdown_string` fails with the
missing-frontmatter error whose message includes the intended path, and never
returns a page. -/
theorem c2_missing_frontmatter (yamlLoad : String → Option (Dict Value))
    (mdRenderer : String → String) (md path : String)
    (h : countOcc fmDelim md.data < 2) :
    Page.from_markdown_string yamlLoad mdRenderer md path
      = .error ("Page " ++ path ++ " must have frontmatter.")
    ∧ ∀ p, Page.from_markdown_string yamlLoad mdRenderer md path ≠ .ok p := by
  have he := from_markdown_string_error yamlLoad mdRenderer md path h
  refine ⟨he, fun p hp => ?_⟩
  rw [he] at hp
  exact absurd hp (by simp)

/-- Witness for C2 at the concrete input `"hello --- world"`, `"/x"`. -/
theorem c2_missing_frontmatter_witness :
    countOcc fmDelim "hello --- world".data < 2
    ∧ Page.from_markdown_string (fun _ => none) id "hello --- world" "/x"
        = .error ("Page " ++ "/x" ++ " must have frontmatter.") :=
  ⟨by decide,
   (c2_missing_frontmatter (fun _ => none) id "hello --- world" "/x" (by decide)).1⟩

/-- C5: `from_markdown_string` appends a trailing `/` exactly when the given
path does not already end with `/`; a path already ending in `/` comes out of
normalization, and out of the constructed page, unchanged (idempotence). -/
theorem c5_normalize_path (path : String) :
    (pyEndsWith path "/" = false → normalizePath path = path ++ "/")
    ∧ (pyEndsWith path "/" = true → normalizePath path = path)
    ∧ normalizePath (normalizePath path) = normalizePath path
    ∧ ∀ (yamlLoad : String → Option (Dict Value)) (mdRenderer : String → String)
        (md : String) (p : Page),
        Page.from_markdown_string yamlLoad mdRenderer md path = .ok p →
        pyEndsWith path "/" = true → p.path = path := by
  refine ⟨fun h => by simp [normalizePath, h], fun h => by simp [normalizePath, h],
    ?_, ?_⟩
  · unfold normalizePath
    cases hb : pyEndsWith path "/" with
    | true => simp [hb]
    | false =>
        have := normalizePath_endsWith path
        unfold normalizePath at this
        rw [hb] at this
        simp only [Bool.false_eq_true, if_false] at this ⊢
        simp [this]
  · intro yamlLoad mdRenderer md p h hslash
    obtain ⟨a, b, _, _, _, hp⟩ :=
      from_markdown_string_ok_inv yamlLoad mdRenderer md path p h
    rw [hp]
    simp [normalizePath, hslash]

/-- Witness for C5 at the concrete paths `"abc"` and `"/a/"`. -/
theorem c5_normalize_path_witness :
    normalizePath "abc" = "abc" ++ "/"
    ∧ normalizePath "/a/" = "/a/"
    ∧ (⟨[], "\nb", "/a/"⟩ : Page).path = "/a/" :=
  ⟨(c5_normalize_path "abc").1 (by decide),
   (c5_normalize_path "/a/").2.1 (by decide),
   (c5_normalize_path "/a/").2.2.2 (fun _ => none) id "---\n\n---\nb"
     ⟨[], "\nb", "/a/"⟩ rfl (by decide)⟩

/-- C1: loading a directory `content` containing `content/index.md` and
`content/blog/2021-01-01.md`, each with a valid frontmatter block, yields
exactly one page at `/` (via the `/index/` rewrite) and one page at
`/blog/2021-01-01/`. -/
theorem c1_load_index_and_blog (yamlLoad : String → Option (Dict Value))
    (mdRenderer : String → String) (m1 m2 : String)
    (h1 : 2 ≤ countOcc fmDelim m1.data) (h2 : 2 ≤ countOcc fmDelim m2.data) :
    ∃ p1 p2, StaticContentLoader.load "content" yamlLoad mdRenderer
        [("content/index.md", m1), ("content/blog/2021-01-01.md", m2)]
        = .ok [p1, p2]
      ∧ p1.path = "/" ∧ p2.path = "/blog/2021-01-01/" := by
  obtain ⟨p1, hp1, hpath1⟩ := from_markdown_string_ok yamlLoad mdRenderer m1
    (StaticContentLoader.page_path "content" "content/index.md") h1
  obtain ⟨p2, hp2, hpath2⟩ := from_markdown_string_ok yamlLoad mdRenderer m2
    (StaticContentLoader.page_path "content" "content/blog/2021-01-01.md") h2
  refine ⟨p1, p2, ?_, ?_, ?_⟩
  · simp only [StaticContentLoader.load, hp1, hp2]
  · rw [hpath1]
    decide
  · rw [hpath2]
    decide

/-- Witness for C1 with the concrete document `"---\n\n---\nb"` in both files. -/
theorem c1_load_index_and_blog_witness :
    2 ≤ countOcc fmDelim "---\n\n---\nb".data
    ∧ ∃ p1 p2, StaticContentLoader.load "content" (fun _ => none) id
        [("content/index.md", "---\n\n---\nb"), ("content/blog/2021-01-01.md", "---\n\n---\nb")]
        = .ok [p1, p2]
      ∧ p1.path = "/" ∧ p2.path = "/blog/2021-01-01/" :=
  ⟨by decide,
   c1_load_index_and_blog (fun _ => none) id "---\n\n---\nb" "---\n\n---\nb"
     (by decide) (by decide)⟩

/-- C3: one enumerated file without a frontmatter block fails the entire
`load` with the missing-frontmatter error (no partial list of pages), and the
same failure propagates out of `StaticRouter` construction, so no router is
produced. -/
theorem c3_bad_file_aborts_load (yamlLoad : String → Option (Dict Value))
    (mdRenderer : String → String) (directory : String)
    (files : List (String × String)) (dt : String) (f : String × String)
    (hf : f ∈ files) (hbad : countOcc fmDelim f.2.data < 2) :
    ∃ e, StaticContentLoader.load directory yamlLoad mdRenderer files = .error e
      ∧ StaticRouter.init (StaticContentLoader.load directory yamlLoad mdRenderer files) dt
          = .error e := by
  obtain ⟨e, he⟩ := load_error_of_mem directory yamlLoad mdRenderer files f hf
    ⟨_, from_markdown_string_error yamlLoad mdRenderer f.2
      (StaticContentLoader.page_path directory f.1) hbad⟩
  exact ⟨e, he, by simp [StaticRouter.init, he]⟩

/-- Witness for C3 with the concrete bad file `("content/a.md", "nope")`. -/
theorem c3_bad_file_aborts_load_witness :
    ("content/a.md", "nope") ∈ [("content/a.md", "nope")]
    ∧ countOcc fmDelim ("content/a.md", "nope").2.data < 2
    ∧ ∃ e, StaticContentLoader.load "content" (fun _ => none) id
          [("content/a.md", "nope")] = .error e
      ∧ StaticRouter.init (StaticContentLoader.load "content" (fun _ => none) id
          [("content/a.md", "nope")]) "default" = .error e :=
  ⟨by decide, by decide,
   c3_bad_file_aborts_load (fun _ => none) id "content" [("content/a.md", "nope")]
     "default" ("content/a.md", "nope") (by decide) (by decide)⟩

/-- C4, counterexample: a frontmatter key named like the core field `path` is
shadowed by the field, and a key named like the `pydantic.BaseModel` method
`copy` is shadowed by the class attribute — in both cases attribute access
does not yield the parsed YAML value, although both keys round-tripped into
the mapping. -/
theorem c4_core_key_shadowed :
    ∃ p, Page.from_markdown_string
        (fun s => if s = "\npath: foo\ncopy: bar\n"
          then some [("path", Value.vstr "foo"), ("copy", Value.vstr "bar")] else none)
        id "---\npath: foo\ncopy: bar\n---\nbody" "/p/" = .ok p
      ∧ dictGet p.frontmatter "path" = some (Value.vstr "foo")
      ∧ p.getattr pydanticClassAttrs "path" ≠ AttrValue.fm (some (Value.vstr "foo"))
      ∧ p.getattr pydanticClassAttrs "path" = AttrValue.coreStr "/p/"
      ∧ dictGet p.frontmatter "copy" = some (Value.vstr "bar")
      ∧ p.getattr pydanticClassAttrs "copy" ≠ AttrValue.fm (some (Value.vstr "bar"))
      ∧ p.getattr pydanticClassAttrs "copy" = AttrValue.classAttr "copy" :=
  ⟨⟨[("path", Value.vstr "foo"), ("copy", Value.vstr "bar")], "\nbody", "/p/"⟩,
   rfl, rfl, by decide, by decide, rfl, by decide, by decide⟩

/-- C4 (amended): for a successful `from_markdown_string`, the page's
frontmatter is exactly the parsed YAML mapping, and attribute access of every
name that is neither one of the core field names `frontmatter`, `content`,
`path` nor an attribute of the `pydantic.BaseModel` class (for any such
attribute set) yields exactly the mapping's value for that name — the parsed
value when the name is a key, an absent value otherwise. -/
theorem c4_frontmatter_roundtrip (yamlLoad : String → Option (Dict Value))
    (mdRenderer : String → String) (md path : String) (p : Page)
    (h : Page.from_markdown_string yamlLoad mdRenderer md path = .ok p) :
    (∃ fmSeg contentSeg, (pySplit fmDelim 2 md.data).drop 1 = [fmSeg, contentSeg]
       ∧ p.frontmatter = (yamlLoad (String.mk fmSeg)).getD [])
    ∧ (∀ (classAttrs : List String) (k : String),
        k ≠ "frontmatter" → k ≠ "content" → k ≠ "path" → k ∉ classAttrs →
        p.getattr classAttrs k = AttrValue.fm (dictGet p.frontmatter k)) := by
  obtain ⟨a, b, hd, hfm, _, _⟩ :=
    from_markdown_string_ok_inv yamlLoad mdRenderer md path p h
  refine ⟨⟨a, b, hd, hfm⟩, ?_⟩
  intro classAttrs k h1 h2 h3 h4
  simp [Page.getattr, h1, h2, h3, h4]

/-- Witness for C4 (amended) at a concrete page with key `title`, which is
neither a core field nor a pydantic class attribute. -/
theorem c4_frontmatter_roundtrip_witness :
    (⟨[("title", Value.vstr "t")], "\nbody", "/p/"⟩ : Page).getattr
        pydanticClassAttrs "title"
      = AttrValue.fm (dictGet ([("title", Value.vstr "t")] : Dict Value) "title") :=
  (c4_frontmatter_roundtrip
    (fun s => if s = "\ntitle: t\n" then some [("title", Value.vstr "t")] else none)
    id "---\ntitle: t\n---\nbody" "/p/"
    ⟨[("title", Value.vstr "t")], "\nbody", "/p/"⟩ rfl).2
    pydanticClassAttrs "title" (by decide) (by decide) (by decide) (by decide)

/-- C6, counterexample: `from_markdown_string` only appends a trailing slash;
with the path argument `"abc"` the stored path `"abc/"` does not begin with
`/`. -/
theorem c6_no_leading_slash :
    ∃ p, Page.from_markdown_string (fun _ => none) id "---\n\n---\ny" "abc" = .ok p
      ∧ pyStartsWith p.path "/" = false :=
  ⟨⟨[], "\ny", "abc/"⟩, rfl, by decide⟩

/-- C6 (amended): every page constructed by `from_markdown_string` — and so
every page of a successful `StaticContentLoader.load` — has a path that ends
with `/`; beginning with `/` is not enforced for arbitrary path arguments. -/
theorem c6_paths_end_with_slash :
    (∀ (yamlLoad : String → Option (Dict Value)) (mdRenderer : String → String)
       (md path : String) (p : Page),
       Page.from_markdown_string yamlLoad mdRenderer md path = .ok p →
       pyEndsWith p.path "/" = true)
    ∧ (∀ (directory : String) (yamlLoad : String → Option (Dict Value))
       (mdRenderer : String → String) (files : List (String × String))
       (pages : List Page),
       StaticContentLoader.load directory yamlLoad mdRenderer files = .ok pages →
       ∀ p ∈ pages, pyEndsWith p.path "/" = true) := by
  have h1 : ∀ (yamlLoad : String → Option (Dict Value))
      (mdRenderer : String → String) (md path : String) (p : Page),
      Page.from_markdown_string yamlLoad mdRenderer md path = .ok p →
      pyEndsWith p.path "/" = true := by
    intro yamlLoad mdRenderer md path p h
    obtain ⟨a, b, _, _, _, hp⟩ :=
      from_markdown_string_ok_inv yamlLoad mdRenderer md path p h
    rw [hp]
    exact normalizePath_endsWith path
  refine ⟨h1, ?_⟩
  intro directory yamlLoad mdRenderer files pages h p hp
  obtain ⟨f, _, hfp⟩ := load_ok_mem directory yamlLoad mdRenderer files pages h p hp
  exact h1 yamlLoad mdRenderer f.2 _ p hfp

/-- Witness for C6 (amended) at the concrete page built from path `"abc"`. -/
theorem c6_paths_end_with_slash_witness :
    pyEndsWith (⟨[], "\ny", "abc/"⟩ : Page).path "/" = true :=
  c6_paths_end_with_slash.1 (fun _ => none) id "---\n\n---\ny" "abc"
    ⟨[], "\ny", "abc/"⟩ rfl

/-- Counting routes by path over the mapped registration list is counting the
keys themselves. -/
lemma countP_routes (keys : List String) (path : String) :
    ((keys.map (fun p =>
        ({ method := "GET", path := p, handler := HandlerRef.page_handler } : Route))).countP
      (fun rt => rt.path = path))
      = keys.countP (fun k => k = path) := by
  induction keys with
  | nil => simp
  | cons k ks ih => simp [List.countP_cons, ih]

/-- On a duplicate-free list, counting a value gives one when present and
zero otherwise. -/
lemma countP_eq_ite_of_nodup (keys : List String) (h : keys.Nodup) (path : String) :
    keys.countP (fun k => k = path) = if path ∈ keys then 1 else 0 := by
  induction keys with
  | nil => simp
  | cons k ks ih =>
      simp only [List.nodup_cons] at h
      by_cases hk : k = path
      · subst hk
        have hz : ks.countP (fun x => x = k) = 0 :=
          List.countP_eq_zero.mpr (fun a ha => by
            simp only [decide_eq_true_eq]
            exact fun heq => h.1 (heq ▸ ha))
        simp [List.countP_cons, hz]
      · simp only [List.countP_cons, ih h.2, List.mem_cons, hk, decide_eq_true_eq]
        have : ¬ path = k := fun he => hk he.symm
        simp [this, hk]

/-- C7: `register` leaves the existing application routes in place and
appends, for each distinct indexed path, exactly one route bound to exactly
that path; every appended route uses the HTTP method GET and the single
shared `page_handler` (no per-path closures). -/
theorem c7_register_one_get_route_per_path (pages : List Page) (dt : String)
    (r : StaticRouter) (app : List Route)
    (h : StaticRouter.init (.ok pages) dt = .ok r) :
    ((r.register app).take app.length = app)
    ∧ (∀ path, ((r.register app).drop app.length).countP (fun rt => rt.path = path)
        = if path ∈ dictKeys r._pages then 1 else 0)
    ∧ (∀ rt ∈ (r.register app).drop app.length,
        rt.method = "GET" ∧ rt.handler = HandlerRef.page_handler
          ∧ rt.path ∈ dictKeys r._pages) := by
  have hr : r = { _pages := buildIndex pages, _default_template := dt } := by
    simp only [StaticRouter.init, Except.ok.injEq] at h
    exact h.symm
  have hnodup : (dictKeys r._pages).Nodup := by
    rw [hr]
    exact buildIndex_keys_nodup pages
  refine ⟨?_, ?_, ?_⟩
  · simp [StaticRouter.register]
  · intro path
    have hdrop : (r.register app).drop app.length
        = (dictKeys r._pages).map (fun p =>
            ({ method := "GET", path := p, handler := HandlerRef.page_handler } : Route)) := by
      simp [StaticRouter.register]
    rw [hdrop, countP_routes, countP_eq_ite_of_nodup _ hnodup]
  · intro rt hrt
    have hdrop : (r.register app).drop app.length
        = (dictKeys r._pages).map (fun p =>
            ({ method := "GET", path := p, handler := HandlerRef.page_handler } : Route)) := by
      simp [StaticRouter.register]
    rw [hdrop] at hrt
    obtain ⟨k, hk, hrteq⟩ := List.mem_map.mp hrt
    rw [← hrteq]
    exact ⟨rfl, rfl, hk⟩

/-- Witness for C7 on a one-page router over an empty application. -/
theorem c7_register_one_get_route_per_path_witness :
    ((StaticRouter.register ⟨[("/", ⟨[], "c", "/"⟩)], "default"⟩ []).take 0 = [])
    ∧ (∀ path, ((StaticRouter.register ⟨[("/", ⟨[], "c", "/"⟩)], "default"⟩ []).drop 0).countP
        (fun rt => rt.path = path)
        = if path ∈ dictKeys (⟨[("/", ⟨[], "c", "/"⟩)], "default"⟩ : StaticRouter)._pages
          then 1 else 0)
    ∧ (∀ rt ∈ (StaticRouter.register ⟨[("/", ⟨[], "c", "/"⟩)], "default"⟩ []).drop 0,
        rt.method = "GET" ∧ rt.handler = HandlerRef.page_handler
          ∧ rt.path ∈ dictKeys (⟨[("/", ⟨[], "c", "/"⟩)], "default"⟩ : StaticRouter)._pages) :=
  c7_register_one_get_route_per_path [⟨[], "c", "/"⟩] "default"
    ⟨[("/", ⟨[], "c", "/"⟩)], "default"⟩ [] rfl

/-- C8: a request whose path component is not a key of the index fails with
the 404 `HTTPException`, rendering nothing and leaving the router state
untouched; a request whose path is indexed never produces the 404 — it always
reaches a template response. -/
theorem c8_unknown_path_404 (r : StaticRouter) (requestPath : String) :
    (requestPath ∉ dictKeys r._pages →
      r.page_handler requestPath = (HandlerResult.httpException 404, r))
    ∧ (requestPath ∈ dictKeys r._pages →
      ∃ t pp, (r.page_handler requestPath).1 = HandlerResult.templateResponse t pp) := by
  constructor
  · intro h
    have hg := (dictGet_eq_none_iff r._pages requestPath).mpr h
    simp [StaticRouter.page_handler, hg]
  · intro h
    obtain ⟨page, hg⟩ := dictGet_isSome_of_mem r._pages requestPath h
    simp only [StaticRouter.page_handler, hg]
    exact ⟨_, _, rfl⟩

/-- Witness for C8 on a one-page router, at an unknown and a known path. -/
theorem c8_unknown_path_404_witness :
    ("/x" ∉ dictKeys (⟨[("/", ⟨[], "c", "/"⟩)], "default"⟩ : StaticRouter)._pages)
    ∧ (StaticRouter.page_handler ⟨[("/", ⟨[], "c", "/"⟩)], "default"⟩ "/x"
        = (HandlerResult.httpException 404, ⟨[("/", ⟨[], "c", "/"⟩)], "default"⟩))
    ∧ ∃ t pp, (StaticRouter.page_handler ⟨[("/", ⟨[], "c", "/"⟩)], "default"⟩ "/").1
        = HandlerResult.templateResponse t pp :=
  ⟨by decide,
   (c8_unknown_path_404 ⟨[("/", ⟨[], "c", "/"⟩)], "default"⟩ "/x").1 (by decide),
   (c8_unknown_path_404 ⟨[("/", ⟨[], "c", "/"⟩)], "default"⟩ "/").2 (by decide)⟩

/-- Overwriting a key with the value it already holds is the identity on a
page's frontmatter, hence on the page. -/
lemma setattr_self (p : Page) (n : String) (v : Value)
    (h : dictGet p.frontmatter n = some v) : p.setattr n v = p := by
  cases p with
  | mk fm c pth =>
      simp only [Page.setattr]
      rw [dictSet_get_self fm n v h]

/-- Writing back the page a router's index already holds at a key is the
identity on the router. -/
lemma router_set_self (r : StaticRouter) (k : String) (p : Page)
    (h : dictGet r._pages k = some p) :
    ({ r with _pages := dictSet r._pages k p } : StaticRouter) = r := by
  cases r with
  | mk ps dt =>
      simp only [StaticRouter.mk.injEq, and_true]
      exact dictSet_get_self ps k p h

/-- A page whose `template` value is already the router's default template
name renders that template and leaves the router unchanged on every request. -/
lemma page_handler_stable (r1 : StaticRouter) (requestPath : String) (page1 : Page)
    (hg : dictGet r1._pages requestPath = some page1)
    (ht : dictGet page1.frontmatter "template" = some (Value.vstr r1._default_template)) :
    r1.page_handler requestPath
      = (HandlerResult.templateResponse (r1._default_template ++ ".html") page1.path, r1) := by
  cases htruthy : (Value.vstr r1._default_template).truthy with
  | true => simp [StaticRouter.page_handler, hg, ht, htruthy, Value.toStr]
  | false =>
      have hdt : r1._default_template = "" := by
        simpa [Value.truthy] using htruthy
      have hp2 : page1.setattr "template" (Value.vstr r1._default_template) = page1 :=
        setattr_self page1 "template" (Value.vstr r1._default_template) ht
      simp only [StaticRouter.page_handler, hg, ht, htruthy, Bool.not_false, if_true,
        hp2, router_set_self r1 requestPath page1 hg, Option.elim]
      rw [hdt]
      simp [Value.toStr]

/-- C9, counterexample: a page with the explicit but falsy frontmatter value
`template: ""` is rendered with the default template, and its frontmatter is
overwritten in place, although the claim promises explicit values are used
as-is and left unchanged. -/
theorem c9_falsy_template_overwritten :
    (dictGet (⟨[("template", Value.vstr "")], "c", "/"⟩ : Page).frontmatter "template"
      = some (Value.vstr ""))
    ∧ (StaticRouter.page_handler
        ⟨[("/", ⟨[("template", Value.vstr "")], "c", "/"⟩)], "default"⟩ "/").1
        = HandlerResult.templateResponse "default.html" "/"
    ∧ (StaticRouter.page_handler
        ⟨[("/", ⟨[("template", Value.vstr "")], "c", "/"⟩)], "default"⟩ "/").2
        ≠ ⟨[("/", ⟨[("template", Value.vstr "")], "c", "/"⟩)], "default"⟩ := by
  refine ⟨rfl, rfl, ?_⟩
  decide

/-- C9 (amended): resolving an indexed page with an explicit truthy
`template` value renders that value and changes nothing; a page whose
`template` value is absent — or present but falsy — has the default template
name written into its frontmatter in place, is rendered with the default
template, and the choice persists: the updated index serves every subsequent
request for that path identically, without further state change. -/
theorem c9_default_template_persisted (r : StaticRouter) (requestPath : String)
    (page : Page) (h : dictGet r._pages requestPath = some page) :
    (∀ v, dictGet page.frontmatter "template" = some v → v.truthy = true →
      r.page_handler requestPath
        = (HandlerResult.templateResponse (v.toStr ++ ".html") page.path, r))
    ∧ ((dictGet page.frontmatter "template" = none
        ∨ ∃ v, dictGet page.frontmatter "template" = some v ∧ v.truthy = false) →
      ∃ r1, r.page_handler requestPath
          = (HandlerResult.templateResponse (r._default_template ++ ".html") page.path, r1)
        ∧ dictGet r1._pages requestPath
            = some (page.setattr "template" (Value.vstr r._default_template))
        ∧ r1.page_handler requestPath
            = (HandlerResult.templateResponse (r._default_template ++ ".html") page.path, r1)) := by
  constructor
  · intro v hv htruthy
    simp [StaticRouter.page_handler, h, hv, htruthy, Option.elim]
  · intro hcase
    have hneeds : (match dictGet page.frontmatter "template" with
        | none => true
        | some v => !v.truthy) = true := by
      rcases hcase with hnone | ⟨v, hv, hfalse⟩
      · rw [hnone]
      · rw [hv]
        simp [hfalse]
    refine ⟨{ r with _pages := dictSet r._pages requestPath (page.setattr "template" (Value.vstr r._default_template)) }, ?_, ?_, ?_⟩
    · simp only [StaticRouter.page_handler, h, hneeds, if_true, Page.setattr,
        dictGet_dictSet_self, Option.elim]
      rfl
    · exact dictGet_dictSet_self r._pages requestPath _
    · exact page_handler_stable
        { r with _pages := dictSet r._pages requestPath (page.setattr "template" (Value.vstr r._default_template)) }
        requestPath (page.setattr "template" (Value.vstr r._default_template))
        (dictGet_dictSet_self r._pages requestPath _)
        (by simp [Page.setattr, dictGet_dictSet_self])

/-- Witness for C9 (amended) on one router with an explicit truthy template
and one router without a template value. -/
theorem c9_default_template_persisted_witness :
    (StaticRouter.page_handler
        ⟨[("/", ⟨[("template", Value.vstr "custom")], "c", "/"⟩)], "default"⟩ "/"
      = (HandlerResult.templateResponse ((Value.vstr "custom").toStr ++ ".html") "/",
         ⟨[("/", ⟨[("template", Value.vstr "custom")], "c", "/"⟩)], "default"⟩))
    ∧ ∃ r1, StaticRouter.page_handler ⟨[("/", ⟨[], "c", "/"⟩)], "default"⟩ "/"
          = (HandlerResult.templateResponse ("default" ++ ".html") "/", r1)
        ∧ dictGet r1._pages "/"
            = some ((⟨[], "c", "/"⟩ : Page).setattr "template" (Value.vstr "default"))
        ∧ r1.page_handler "/"
            = (HandlerResult.templateResponse ("default" ++ ".html") "/", r1) :=
  ⟨(c9_default_template_persisted
      ⟨[("/", ⟨[("template", Value.vstr "custom")], "c", "/"⟩)], "default"⟩ "/"
      ⟨[("template", Value.vstr "custom")], "c", "/"⟩ rfl).1
      (Value.vstr "custom") rfl (by decide),
   (c9_default_template_persisted ⟨[("/", ⟨[], "c", "/"⟩)], "default"⟩ "/"
      ⟨[], "c", "/"⟩ rfl).2 (Or.inl rfl)⟩

/-- C10: attribute assignment on a page always stores the value into the
frontmatter mapping under the assigned name, and after any sequence of
assignments — including to the names `path` and `content` — reading the
page's `path` and `content` attributes still returns the values fixed at
construction. -/
theorem c10_setattr_preserves_core (p : Page) (assignments : List (String × Value)) :
    (∀ classAttrs, (assignments.foldl (fun q a => q.setattr a.1 a.2) p).getattr
        classAttrs "path"
      = AttrValue.coreStr p.path)
    ∧ (∀ classAttrs, (assignments.foldl (fun q a => q.setattr a.1 a.2) p).getattr
        classAttrs "content"
      = AttrValue.coreStr p.content)
    ∧ (∀ name v, dictGet ((p.setattr name v).frontmatter) name = some v) := by
  have aux : ∀ (as : List (String × Value)) (q : Page),
      (as.foldl (fun q a => q.setattr a.1 a.2) q).path = q.path
      ∧ (as.foldl (fun q a => q.setattr a.1 a.2) q).content = q.content := by
    intro as
    induction as with
    | nil => intro q; exact ⟨rfl, rfl⟩
    | cons a rest ih => intro q; exact ih (q.setattr a.1 a.2)
  refine ⟨?_, ?_, ?_⟩
  · intro classAttrs
    simp [Page.getattr, (aux assignments p).1]
  · intro classAttrs
    simp [Page.getattr, (aux assignments p).2]
  · intro name v
    simp [Page.setattr, dictGet_dictSet_self]

/-- Witness for C10 on a concrete page and assignment sequence that reassigns
the names `path` and `content`. -/
theorem c10_setattr_preserves_core_witness :
    (∀ classAttrs,
      ([(("path" : String), Value.vstr "hacked"), (("content" : String), Value.vnull)].foldl
        (fun q a => q.setattr a.1 a.2) (⟨[], "c", "/"⟩ : Page)).getattr classAttrs "path"
      = AttrValue.coreStr "/")
    ∧ (∀ classAttrs,
      ([(("path" : String), Value.vstr "hacked"), (("content" : String), Value.vnull)].foldl
        (fun q a => q.setattr a.1 a.2) (⟨[], "c", "/"⟩ : Page)).getattr classAttrs "content"
      = AttrValue.coreStr "c")
    ∧ (∀ name v, dictGet (((⟨[], "c", "/"⟩ : Page).setattr name v).frontmatter) name
        = some v) :=
  c10_setattr_preserves_core ⟨[], "c", "/"⟩
    [("path", Value.vstr "hacked"), ("content", Value.vnull)]

end StaticRouterModel
